import Mathlib

/-!
Shallow embedding of the read-model repository layer of the
`balboah/eventhorizon` excerpt:

* `src/repo/version/repo.go` — the Version Gate decorator (`Repo.Find`,
  `Repo.findMinVersion`, chain walker `Repository`);
* `src/storage/mongodb/readrepository.go` — the concrete document-store
  repository (`ReadRepository.Find`).

Go `(interface{}, error)` pairs are embedded as `FindResult` (an optional
model together with an optional error).  The ambient `context.Context` is
split into the data the code reads from it (`Ctx`: the minimum-version
value set by `WithMinVersion`, whether a deadline is set, the namespace)
and the per-run nondeterminism (`GateEnv`: the wrapped repository's answer
at each attempt, which arm of the backoff/cancellation `select` wins after
each attempt, and the value of `ctx.Err()`).  The unbounded retry loop of
`Repo.Find` is embedded as a step function `findStep` (one loop iteration)
driven by a fuel-indexed iterator `findLoop`; `none` means the run did not
terminate within the given fuel.  The iterator also counts the calls made
to the wrapped repository.
-/

namespace EventHorizon

/-- Sentinel error values of the `eventhorizon` package that this excerpt
compares against (`eh.ErrModelNotFound`, `eh.ErrIncorrectModelVersion`,
`eh.ErrModelHasNoVersion`), plus the `mongodb` package's `ErrModelNotSet`
and an `other` constructor for any further error value. -/
inductive ErrCode where
  | modelNotFound
  | incorrectModelVersion
  | modelHasNoVersion
  | modelNotSet
  | other (s : String)
  deriving DecidableEq, Repr

/-- A Go `error` value as it appears in this excerpt: either a structured
`eh.RepoError{Err, Namespace}`, a bare sentinel error, one of the two
`context` package errors, or some other error value. -/
inductive Error where
  | repoError (err : ErrCode) (ns : String)
  | sentinel (code : ErrCode)
  | ctxCanceled
  | ctxDeadlineExceeded
  | other (s : String)
  deriving DecidableEq, Repr

/-- A read model (`interface{}`): it either implements `eh.Versionable`
(carrying an `AggregateVersion` integer) or it does not. -/
inductive Model where
  | versioned (aggregateVersion : Int) (data : String)
  | plain (data : String)
  deriving DecidableEq, Repr

/-- The `(interface{}, error)` pair returned by the `Find` methods.
`model = none` is the nil interface value. -/
structure FindResult where
  model : Option Model
  err : Option Error
  deriving DecidableEq, Repr

/-- The data `Repo.Find` reads from its `context.Context`:
`eh.MinVersionFromContext` (value together with its `ok` flag),
whether `ctx.Deadline()` reports a deadline, and
`eh.NamespaceFromContext`. -/
structure Ctx where
  minVersion : Option Int
  hasDeadline : Bool
  ns : String
  deriving Repr

namespace Version

/-- Per-run environment of one `Repo.Find` call: `inner n` is the result of
the n-th call to the wrapped repository's `Find` (counted from 0);
`doneWins n` tells whether the `<-ctx.Done()` arm of the `select` wins the
race against the backoff timer after attempt n; `ctxErr` is the value of
`ctx.Err()` once `ctx.Done()` is closed. -/
structure GateEnv where
  inner : Nat → FindResult
  doneWins : Nat → Bool
  ctxErr : Error

/-- The capability probe `versionable, ok := model.(eh.Versionable)`
followed by `versionable.AggregateVersion()`: yields the version when the
(non-nil) model implements `eh.Versionable`, and `none` otherwise. -/
def asVersion : Option Model → Option Int
  | some (.versioned v _) => some v
  | _ => none

/-- Embedding of `Repo.findMinVersion` (repo.go lines 91-113) applied to the wrapped
repository's answer `inner`: propagate an error unchanged; fail with
`eh.ErrModelHasNoVersion` when the model is not `eh.Versionable`; fail with
`eh.ErrIncorrectModelVersion` when its version is below `minVersion`;
otherwise return the model. -/
def findMinVersion (inner : FindResult) (ns : String) (minVersion : Int) : FindResult :=
  match inner.err with
  | some e => ⟨none, some e⟩
  | none =>
    match asVersion inner.model with
    | none => ⟨none, some (.repoError .modelHasNoVersion ns)⟩
    | some v =>
      if v < minVersion then ⟨none, some (.repoError .incorrectModelVersion ns)⟩
      else ⟨inner.model, none⟩

/-- The retry test of repo.go lines 60-61: the error is an `eh.RepoError`
whose `Err` field is `eh.ErrIncorrectModelVersion` or
`eh.ErrModelNotFound`. -/
def retryableErr : Option Error → Bool
  | some (.repoError e _) => e == .incorrectModelVersion || e == .modelNotFound
  | _ => false

/-- Outcome of one iteration of the retry loop: return from `Find`, or go
around the loop again. -/
inductive StepOutcome where
  | ret (r : FindResult)
  | next
  deriving DecidableEq, Repr

/-- One iteration of the retry loop of `Repo.Find` (repo.go lines 58-81),
at loop index `n`: run `findMinVersion` on the wrapped repository's n-th
answer; on a retryable error either return the attempt's own result (no
deadline), return `ctx.Err()` (cancellation wins the `select`), or loop;
on any other error return `(nil, err)`; on success return the model. -/
def findStep (env : GateEnv) (ctx : Ctx) (minVersion : Int) (n : Nat) : StepOutcome :=
  let r := findMinVersion (env.inner n) ctx.ns minVersion
  if retryableErr r.err then
    if !ctx.hasDeadline then .ret r
    else if env.doneWins n then .ret ⟨none, some env.ctxErr⟩
    else .next
  else
    match r.err with
    | some e => .ret ⟨none, some e⟩
    | none => .ret ⟨r.model, none⟩

/-- Fuel-indexed iteration of `findStep` starting at loop index `n`.
`some (r, j)` means the loop returned result `r` having made `j` calls to
the wrapped repository in total (indices `0..j-1`); `none` means the run
did not return within the given fuel. -/
def findLoop (env : GateEnv) (ctx : Ctx) (minVersion : Int) : Nat → Nat → Option (FindResult × Nat)
  | _, 0 => none
  | n, fuel + 1 =>
    match findStep env ctx minVersion n with
    | .ret r => some (r, n + 1)
    | .next => findLoop env ctx minVersion (n + 1) fuel

/-- Embedding of `Repo.Find` (repo.go lines 47-88): when no minimum version is set in
the context, or it is below 1, delegate to the wrapped repository (its 0-th
answer, one call); otherwise run the retry loop. -/
def Find (env : GateEnv) (ctx : Ctx) (fuel : Nat) : Option (FindResult × Nat) :=
  match ctx.minVersion with
  | none => some (env.inner 0, 1)
  | some minVersion =>
    if minVersion < 1 then some (env.inner 0, 1)
    else findLoop env ctx minVersion 0 fuel

/-- The dead fallback value of repo.go lines 84-87, placed after the
unbounded `for` loop: `eh.RepoError{eh.ErrModelNotFound, namespace}`.  The
loop contains no `break`, so this return is statically unreachable; in the
embedding no branch of `findStep` or `findLoop` produces a result from it
(every result of `findLoop` is the payload of some `findStep` `ret`). -/
def unreachableReturn (ctx : Ctx) : FindResult :=
  ⟨none, some (.repoError .modelNotFound ctx.ns)⟩

/-- A repository in a decorator chain: a `*version.Repo` (the Version
Gate, wrapping an `eh.ReadWriteRepo` that may be the nil interface), some
other decorator exposing `Parent`, or a concrete store whose `Parent`
returns nil. -/
inductive ReadRepo where
  | versionRepo (parent : Option ReadRepo)
  | middleware (parent : Option ReadRepo)
  | store

/-- The `Parent()` method: the wrapped repository, nil for a concrete
store. -/
def Parent : ReadRepo → Option ReadRepo
  | .versionRepo p => p
  | .middleware p => p
  | .store => none

/-- The type test `r, ok := repo.(*Repo)` of repo.go line 121. -/
def isVersionRepo : ReadRepo → Bool
  | .versionRepo _ => true
  | _ => false

/-- Embedding of `Repository` (repo.go lines 116-126): walk `Parent()` links from the
given (nil-able) repository inward until a `*version.Repo` is found,
returning nil on a nil repository and when the walk reaches the root
without finding one. -/
def Repository : Option ReadRepo → Option ReadRepo
  | none => none
  | some (.versionRepo p) => some (.versionRepo p)
  | some (.middleware p) => Repository p
  | some .store => Repository (Parent .store)
termination_by o => sizeOf o
decreasing_by all_goals simp [Parent] <;> omega

/-- The list of repositories visited by walking `Parent()` links from the
given repository to the root. -/
def chain : Option ReadRepo → List ReadRepo
  | none => []
  | some r => r :: chain (Parent r)
termination_by o => sizeOf o
decreasing_by cases r <;> simp [Parent] <;> omega

end Version

namespace MongoDB

/-- Outcome of the document-store query
`sess.DB(db).C(collection).FindId(id).One(model)`: a decoded model, the
driver's not-found error, or some other storage failure. -/
inductive QueryResult where
  | found (m : Model)
  | errNotFound
  | errOther (s : String)
  deriving DecidableEq, Repr

/-- The state of a `mongodb.ReadRepository` that `Find` consults: whether
a model factory has been set with `SetModel`. -/
structure ReadRepository where
  hasFactory : Bool
  deriving DecidableEq, Repr

/-- Embedding of `ReadRepository.Find` (readrepository.go lines 77-92): fail with
`ErrModelNotSet` when no factory is set; otherwise run the query and
return the decoded model, or fail with `eventhorizon.ErrModelNotFound` on
any query error. -/
def Find (r : ReadRepository) (q : QueryResult) : FindResult :=
  if !r.hasFactory then ⟨none, some (.sentinel .modelNotSet)⟩
  else
    match q with
    | .found m => ⟨some m, none⟩
    | .errNotFound => ⟨none, some (.sentinel .modelNotFound)⟩
    | .errOther _ => ⟨none, some (.sentinel .modelNotFound)⟩

end MongoDB

namespace Version

/-- Sample environment: the wrapped repository always returns a model at
version 2. -/
def envV2 : GateEnv := ⟨fun _ => ⟨some (.versioned 2 "m"), none⟩, fun _ => false, .ctxCanceled⟩

/-- Sample environment: the wrapped repository always returns a model that
does not implement `eh.Versionable`. -/
def envPlain : GateEnv := ⟨fun _ => ⟨some (.plain "m"), none⟩, fun _ => false, .ctxCanceled⟩

/-- Sample environment: the wrapped repository always fails with an error
that is not an `eh.RepoError`. -/
def envBoom : GateEnv := ⟨fun _ => ⟨none, some (.other "boom")⟩, fun _ => false, .ctxCanceled⟩

/-- Sample environment: the wrapped repository always returns a model at
version 1 and the cancellation arm of the `select` wins immediately, with
`ctx.Err()` reporting an exceeded deadline. -/
def envCancel : GateEnv := ⟨fun _ => ⟨some (.versioned 1 "m"), none⟩, fun _ => true, .ctxDeadlineExceeded⟩

theorem findMinVersion_shape (inner : FindResult) (ns : String) (m : Int) :
    findMinVersion inner ns m = ⟨inner.model, none⟩ ∨
      ∃ e, findMinVersion inner ns m = ⟨none, some e⟩ := by
  unfold findMinVersion
  split
  · exact Or.inr ⟨_, rfl⟩
  · split
    · exact Or.inr ⟨_, rfl⟩
    · split
      · exact Or.inr ⟨_, rfl⟩
      · exact Or.inl rfl

theorem findMinVersion_err_model_none (inner : FindResult) (ns : String) (m : Int)
    (h : (findMinVersion inner ns m).err.isSome) :
    (findMinVersion inner ns m).model = none := by
  rcases findMinVersion_shape inner ns m with hs | ⟨e, hs⟩
  · rw [hs] at h
    simp at h
  · rw [hs]

theorem findStep_success (env : GateEnv) (ctx : Ctx) (m : Int) (n : Nat)
    (h : (findMinVersion (env.inner n) ctx.ns m).err = none) :
    findStep env ctx m n = .ret ⟨(findMinVersion (env.inner n) ctx.ns m).model, none⟩ := by
  simp [findStep, h, retryableErr]

theorem findStep_err (env : GateEnv) (ctx : Ctx) (m : Int) (n : Nat) (e : Error)
    (h : (findMinVersion (env.inner n) ctx.ns m).err = some e)
    (hr : retryableErr (some e) = false) :
    findStep env ctx m n = .ret ⟨none, some e⟩ := by
  simp [findStep, h, hr]

theorem findStep_no_deadline (env : GateEnv) (ctx : Ctx) (m : Int) (n : Nat)
    (hd : ctx.hasDeadline = false)
    (hr : retryableErr (findMinVersion (env.inner n) ctx.ns m).err = true) :
    findStep env ctx m n = .ret (findMinVersion (env.inner n) ctx.ns m) := by
  simp [findStep, hd, hr]

theorem findStep_cancel (env : GateEnv) (ctx : Ctx) (m : Int) (n : Nat)
    (hd : ctx.hasDeadline = true)
    (hr : retryableErr (findMinVersion (env.inner n) ctx.ns m).err = true)
    (hw : env.doneWins n = true) :
    findStep env ctx m n = .ret ⟨none, some env.ctxErr⟩ := by
  simp [findStep, hd, hr, hw]

theorem findStep_next_iff (env : GateEnv) (ctx : Ctx) (m : Int) (n : Nat) :
    findStep env ctx m n = .next ↔
      retryableErr (findMinVersion (env.inner n) ctx.ns m).err = true ∧
        ctx.hasDeadline = true ∧ env.doneWins n = false := by
  constructor
  · intro h
    by_cases hr : retryableErr (findMinVersion (env.inner n) ctx.ns m).err
    · by_cases hd : ctx.hasDeadline
      · by_cases hw : env.doneWins n
        · rw [findStep_cancel env ctx m n hd hr hw] at h; cases h
        · exact ⟨hr, hd, by simpa using hw⟩
      · rw [findStep_no_deadline env ctx m n (by simpa using hd) hr] at h; cases h
    · rcases he : (findMinVersion (env.inner n) ctx.ns m).err with _ | e
      · rw [findStep_success env ctx m n he] at h; cases h
      · rw [findStep_err env ctx m n e he (by rw [← he]; simpa using hr)] at h; cases h
  · rintro ⟨hr, hd, hw⟩
    simp [findStep, hr, hd, hw]

theorem findStep_ret_cases (env : GateEnv) (ctx : Ctx) (m : Int) (n : Nat) (r : FindResult)
    (h : findStep env ctx m n = .ret r) :
    (r = ⟨(findMinVersion (env.inner n) ctx.ns m).model, none⟩ ∧
        (findMinVersion (env.inner n) ctx.ns m).err = none) ∨
      (∃ e, r = ⟨none, some e⟩ ∧ (findMinVersion (env.inner n) ctx.ns m).err = some e ∧
        retryableErr (some e) = false) ∨
      (ctx.hasDeadline = false ∧ r = findMinVersion (env.inner n) ctx.ns m ∧
        retryableErr r.err = true) ∨
      (ctx.hasDeadline = true ∧ env.doneWins n = true ∧ r = ⟨none, some env.ctxErr⟩) := by
  by_cases hr : retryableErr (findMinVersion (env.inner n) ctx.ns m).err
  · by_cases hd : ctx.hasDeadline
    · by_cases hw : env.doneWins n
      · rw [findStep_cancel env ctx m n hd hr hw] at h
        injection h with h2
        subst h2
        exact Or.inr (Or.inr (Or.inr ⟨hd, hw, rfl⟩))
      · rw [(findStep_next_iff env ctx m n).2 ⟨hr, hd, by simpa using hw⟩] at h
        cases h
    · rw [findStep_no_deadline env ctx m n (by simpa using hd) hr] at h
      injection h with h2
      subst h2
      exact Or.inr (Or.inr (Or.inl ⟨by simpa using hd, rfl, hr⟩))
  · rcases he : (findMinVersion (env.inner n) ctx.ns m).err with _ | e
    · rw [findStep_success env ctx m n he] at h
      injection h with h2
      subst h2
      exact Or.inl ⟨rfl, rfl⟩
    · rw [findStep_err env ctx m n e he (by rw [← he]; simpa using hr)] at h
      injection h with h2
      subst h2
      exact Or.inr (Or.inl ⟨e, rfl, rfl, by rw [← he]; simpa using hr⟩)

theorem findLoop_of_ret (env : GateEnv) (ctx : Ctx) (m : Int) (n fuel : Nat) (r : FindResult)
    (h : findStep env ctx m n = .ret r) :
    findLoop env ctx m n (fuel + 1) = some (r, n + 1) := by
  simp [findLoop, h]

theorem findLoop_of_next (env : GateEnv) (ctx : Ctx) (m : Int) (n fuel : Nat)
    (h : findStep env ctx m n = .next) :
    findLoop env ctx m n (fuel + 1) = findLoop env ctx m (n + 1) fuel := by
  simp [findLoop, h]

theorem findLoop_ret_step (env : GateEnv) (ctx : Ctx) (m : Int) :
    ∀ fuel n r j, findLoop env ctx m n fuel = some (r, j) →
      ∃ i, n ≤ i ∧ findStep env ctx m i = .ret r ∧ j = i + 1 := by
  intro fuel
  induction fuel with
  | zero => intro n r j h; simp [findLoop] at h
  | succ f ih =>
    intro n r j h
    rcases hs : findStep env ctx m n with r2 | _
    · rw [findLoop_of_ret env ctx m n f r2 hs] at h
      simp only [Option.some.injEq, Prod.mk.injEq] at h
      exact ⟨n, le_refl n, by rw [hs, h.1], h.2.symm⟩
    · rw [findLoop_of_next env ctx m n f hs] at h
      obtain ⟨i, hi, hstep, hj⟩ := ih (n + 1) r j h
      exact ⟨i, by omega, hstep, hj⟩

theorem Find_eq_findLoop (env : GateEnv) (ctx : Ctx) (m : Int) (fuel : Nat)
    (h : ctx.minVersion = some m) (h1 : 1 ≤ m) :
    Find env ctx fuel = findLoop env ctx m 0 fuel := by
  simp only [Find, h]
  rw [if_neg (by omega)]

theorem findLoop_cancel (env : GateEnv) (ctx : Ctx) (m : Int) :
    ∀ k n fuel, ctx.hasDeadline = true →
      (∀ i, i ≤ k → retryableErr (findMinVersion (env.inner (n + i)) ctx.ns m).err = true) →
      env.doneWins (n + k) = true → k < fuel →
      ∃ j, j ≤ n + k + 1 ∧
        findLoop env ctx m n fuel = some (⟨none, some env.ctxErr⟩, j) := by
  intro k
  induction k with
  | zero =>
    intro n fuel hd hr hw hf
    obtain ⟨f, rfl⟩ : ∃ f, fuel = f + 1 := ⟨fuel - 1, by omega⟩
    refine ⟨n + 1, by omega, ?_⟩
    rw [findLoop_of_ret env ctx m n f _
      (findStep_cancel env ctx m n hd (by simpa using hr 0 (by omega)) (by simpa using hw))]
  | succ k ih =>
    intro n fuel hd hr hw hf
    obtain ⟨f, rfl⟩ : ∃ f, fuel = f + 1 := ⟨fuel - 1, by omega⟩
    by_cases hw0 : env.doneWins n
    · refine ⟨n + 1, by omega, ?_⟩
      rw [findLoop_of_ret env ctx m n f _
        (findStep_cancel env ctx m n hd (by simpa using hr 0 (by omega)) hw0)]
    · rw [findLoop_of_next env ctx m n f
        ((findStep_next_iff env ctx m n).2
          ⟨by simpa using hr 0 (by omega), hd, by simpa using hw0⟩)]
      obtain ⟨j, hj, hres⟩ := ih (n + 1) f hd
        (fun i hi => by
          have := hr (i + 1) (by omega)
          rw [show n + 1 + i = n + (i + 1) by omega]
          exact this)
        (by rw [show n + 1 + k = n + (k + 1) by omega]; exact hw)
        (by omega)
      exact ⟨j, by omega, hres⟩

theorem Repository_eq_chain_find : ∀ o : Option ReadRepo,
    Repository o = (chain o).find? isVersionRepo
  | none => by simp [Repository, chain]
  | some (.versionRepo p) => by
    simp [Repository, chain, Parent, isVersionRepo, List.find?]
  | some (.middleware p) => by
    have ih := Repository_eq_chain_find p
    simp [Repository, chain, Parent, isVersionRepo, List.find?, ih]
  | some .store => by
    simp [Repository, chain, Parent, isVersionRepo, List.find?]
termination_by o => sizeOf o
decreasing_by all_goals (simp [Parent]; omega)

/-- C1: when the ambient context carries no minimum-version requirement,
or one below 1, the Version Gate's `Find` delegates directly to the
wrapped repository's `Find`, issuing exactly one call and returning that
call's model and error unchanged. -/
theorem find_passthrough_no_min_version (env : GateEnv) (ctx : Ctx) (fuel : Nat)
    (h : ctx.minVersion = none ∨ ∃ m, ctx.minVersion = some m ∧ m < 1) :
    Find env ctx fuel = some (env.inner 0, 1) := by
  rcases h with h | ⟨m, h, hm⟩
  · simp [Find, h]
  · simp [Find, h, hm]

/-- Witness for C1 at a concrete context with no minimum version set. -/
theorem find_passthrough_no_min_version_witness :
    Find envV2 ⟨none, false, "ns"⟩ 0 = some (⟨some (.versioned 2 "m"), none⟩, 1) :=
  find_passthrough_no_min_version envV2 ⟨none, false, "ns"⟩ 0 (Or.inl rfl)

/-- C2: `findMinVersion` returns the fetched model exactly when the
wrapped `Find` succeeded, the model is `eh.Versionable`, and its version
is at least the requested minimum; it fails with
`eh.ErrModelHasNoVersion` when the fetched model is not versionable, with
`eh.ErrIncorrectModelVersion` when its version is below the minimum, and
propagates the wrapped `Find`'s error otherwise. -/
theorem findMinVersion_spec (inner : FindResult) (ns : String) (m : Int) (hm : 1 ≤ m) :
    ((∃ mdl, findMinVersion inner ns m = ⟨some mdl, none⟩ ∧ inner.model = some mdl) ↔
        inner.err = none ∧ ∃ v, asVersion inner.model = some v ∧ m ≤ v) ∧
      (inner.err = none → asVersion inner.model = none →
        findMinVersion inner ns m = ⟨none, some (.repoError .modelHasNoVersion ns)⟩) ∧
      (∀ v, inner.err = none → asVersion inner.model = some v → v < m →
        findMinVersion inner ns m = ⟨none, some (.repoError .incorrectModelVersion ns)⟩) ∧
      (∀ e, inner.err = some e → findMinVersion inner ns m = ⟨none, some e⟩) := by
  refine ⟨⟨?_, ?_⟩, ?_, ?_, ?_⟩
  · rintro ⟨mdl, hf, hmodel⟩
    rcases he : inner.err with _ | e
    · refine ⟨rfl, ?_⟩
      rcases hv : asVersion inner.model with _ | v
      · simp [findMinVersion, he, hv] at hf
      · by_cases hlt : v < m
        · simp [findMinVersion, he, hv, hlt] at hf
        · exact ⟨v, rfl, by omega⟩
    · simp [findMinVersion, he] at hf
  · rintro ⟨he, v, hv, hvm⟩
    have hmdl : ∃ d, inner.model = some (.versioned v d) := by
      rcases hmo : inner.model with _ | mdl
      · rw [hmo] at hv; simp [asVersion] at hv
      · cases mdl with
        | versioned v2 d =>
          rw [hmo] at hv
          simp [asVersion] at hv
          exact ⟨d, by rw [hv]⟩
        | plain d => rw [hmo] at hv; simp [asVersion] at hv
    obtain ⟨d, hd⟩ := hmdl
    refine ⟨.versioned v d, ?_, hd⟩
    simp [findMinVersion, he, hd, asVersion]
    omega
  · intro he hv
    simp [findMinVersion, he, hv]
  · intro v he hv hlt
    simp [findMinVersion, he, hv, hlt]
  · intro e he
    simp [findMinVersion, he]

/-- Witness for C2: version 0 is below the requested minimum 2. -/
theorem findMinVersion_spec_witness :
    findMinVersion ⟨some (.versioned 0 "d"), none⟩ "ns" 2 =
      ⟨none, some (.repoError .incorrectModelVersion "ns")⟩ :=
  (findMinVersion_spec ⟨some (.versioned 0 "d"), none⟩ "ns" 2 (by norm_num)).2.2.1 0
    rfl rfl (by norm_num)

/-- C3: only the retryable NotFound / IncorrectVersion signals make the
retry loop go around, and only when the context has a deadline (first
conjunct); a first attempt failing with any other error — including an
error the wrapped repository returned from its own `Find`, which
`findMinVersion` propagates verbatim — is returned to the caller after
exactly one call to the wrapped repository (second conjunct). -/
theorem find_retry_policy :
    (∀ (env : GateEnv) (ctx : Ctx) (m : Int) (n : Nat), findStep env ctx m n = .next →
        retryableErr (findMinVersion (env.inner n) ctx.ns m).err = true ∧
          ctx.hasDeadline = true) ∧
      (∀ (env : GateEnv) (ctx : Ctx) (m : Int) (e : Error) (fuel : Nat),
        ctx.minVersion = some m → 1 ≤ m →
        (findMinVersion (env.inner 0) ctx.ns m).err = some e →
        retryableErr (some e) = false →
        Find env ctx (fuel + 1) = some (⟨none, some e⟩, 1)) := by
  constructor
  · intro env ctx m n h
    have h2 := (findStep_next_iff env ctx m n).1 h
    exact ⟨h2.1, h2.2.1⟩
  · intro env ctx m e fuel hmv hm he hr
    rw [Find_eq_findLoop env ctx m (fuel + 1) hmv hm]
    rw [findLoop_of_ret env ctx m 0 fuel _ (findStep_err env ctx m 0 e he hr)]

/-- Witness for C3: a non-`RepoError` storage failure is returned after a
single attempt even though a deadline is set. -/
theorem find_retry_policy_witness :
    Find envBoom ⟨some 3, true, "ns"⟩ 1 = some (⟨none, some (.other "boom")⟩, 1) :=
  find_retry_policy.2 envBoom ⟨some 3, true, "ns"⟩ 3 (.other "boom") 0 rfl
    (by norm_num) rfl rfl

/-- C4: with a minimum-version requirement of at least 1 present and no
deadline on the context, exactly one call to the wrapped repository is
made whatever the outcome, and that single attempt's result is returned:
`eh.ErrIncorrectModelVersion` when the stored model's version is below
the minimum, and the wrapped repository's NotFound error verbatim when
the model is absent. -/
theorem find_no_deadline_single_attempt (env : GateEnv) (ctx : Ctx) (m : Int) (fuel : Nat)
    (hmv : ctx.minVersion = some m) (hm : 1 ≤ m) (hd : ctx.hasDeadline = false) :
    (∃ r, Find env ctx (fuel + 1) = some (r, 1)) ∧
      (∀ v d, env.inner 0 = ⟨some (.versioned v d), none⟩ → v < m →
        Find env ctx (fuel + 1) =
          some (⟨none, some (.repoError .incorrectModelVersion ctx.ns)⟩, 1)) ∧
      (∀ ns2, (env.inner 0).err = some (.repoError .modelNotFound ns2) →
        Find env ctx (fuel + 1) =
          some (⟨none, some (.repoError .modelNotFound ns2)⟩, 1)) := by
  refine ⟨?_, ?_, ?_⟩
  · by_cases hr : retryableErr (findMinVersion (env.inner 0) ctx.ns m).err
    · refine ⟨findMinVersion (env.inner 0) ctx.ns m, ?_⟩
      rw [Find_eq_findLoop env ctx m _ hmv hm]
      exact findLoop_of_ret env ctx m 0 fuel _ (findStep_no_deadline env ctx m 0 hd hr)
    · rcases he : (findMinVersion (env.inner 0) ctx.ns m).err with _ | e
      · refine ⟨⟨(findMinVersion (env.inner 0) ctx.ns m).model, none⟩, ?_⟩
        rw [Find_eq_findLoop env ctx m _ hmv hm]
        exact findLoop_of_ret env ctx m 0 fuel _ (findStep_success env ctx m 0 he)
      · refine ⟨⟨none, some e⟩, ?_⟩
        rw [Find_eq_findLoop env ctx m _ hmv hm]
        refine findLoop_of_ret env ctx m 0 fuel _ (findStep_err env ctx m 0 e he ?_)
        rw [← he]
        simpa using hr
  · intro v d h0 hlt
    have hfmv : findMinVersion (env.inner 0) ctx.ns m =
        ⟨none, some (.repoError .incorrectModelVersion ctx.ns)⟩ := by
      rw [h0]
      simp [findMinVersion, asVersion, hlt]
    rw [Find_eq_findLoop env ctx m _ hmv hm,
      findLoop_of_ret env ctx m 0 fuel _
        (findStep_no_deadline env ctx m 0 hd (by rw [hfmv]; rfl)), hfmv]
  · intro ns2 h0
    have hfmv : findMinVersion (env.inner 0) ctx.ns m =
        ⟨none, some (.repoError .modelNotFound ns2)⟩ := by
      simp [findMinVersion, h0]
    rw [Find_eq_findLoop env ctx m _ hmv hm,
      findLoop_of_ret env ctx m 0 fuel _
        (findStep_no_deadline env ctx m 0 hd (by rw [hfmv]; rfl)), hfmv]

/-- Witness for C4: stored version 2, requested minimum 3, no deadline:
one attempt, `IncorrectVersion`. -/
theorem find_no_deadline_single_attempt_witness :
    Find envV2 ⟨some 3, false, "ns"⟩ 1 =
      some (⟨none, some (.repoError .incorrectModelVersion "ns")⟩, 1) :=
  (find_no_deadline_single_attempt envV2 ⟨some 3, false, "ns"⟩ 3 0 rfl (by norm_num)
    rfl).2.1 2 "m" rfl (by norm_num)

/-- C5: when the wrapped repository returns a model that is not
`eh.Versionable`, the Version Gate's `Find` fails with
`eh.ErrModelHasNoVersion` on the first attempt — with or without a
deadline on the context — and makes no further call to the wrapped
repository. -/
theorem find_no_version_never_retried (env : GateEnv) (ctx : Ctx) (m : Int) (fuel : Nat)
    (mdl : Model) (hmv : ctx.minVersion = some m) (hm : 1 ≤ m)
    (h0 : env.inner 0 = ⟨some mdl, none⟩) (hnv : asVersion (some mdl) = none) :
    Find env ctx (fuel + 1) =
      some (⟨none, some (.repoError .modelHasNoVersion ctx.ns)⟩, 1) := by
  have hfmv : findMinVersion (env.inner 0) ctx.ns m =
      ⟨none, some (.repoError .modelHasNoVersion ctx.ns)⟩ := by
    rw [h0]
    simp [findMinVersion, hnv]
  rw [Find_eq_findLoop env ctx m _ hmv hm,
    findLoop_of_ret env ctx m 0 fuel _
      (findStep_err env ctx m 0 _ (by rw [hfmv]) (by rfl))]

/-- Witness for C5: an unversionable model under a deadline still fails
immediately with `ModelHasNoVersion`. -/
theorem find_no_version_never_retried_witness :
    Find envPlain ⟨some 3, true, "ns"⟩ 1 =
      some (⟨none, some (.repoError .modelHasNoVersion "ns")⟩, 1) :=
  find_no_version_never_retried envPlain ⟨some 3, true, "ns"⟩ 3 0 (.plain "m") rfl
    (by norm_num) rfl rfl

/-- C6: with a deadline present, if every attempt up to iteration `k` hits
a retryable condition (the stored version never reaches the minimum, or
the model stays absent) and the context's done signal wins the backoff
race at iteration `k`, the whole run returns `ctx.Err()` — a
`Cancelled`/`DeadlineExceeded` value, never an IncorrectVersion or
NotFound error — after at most `k + 1` calls to the wrapped
repository. -/
theorem find_cancellation_not_masked (env : GateEnv) (ctx : Ctx) (m : Int) (k fuel : Nat)
    (hmv : ctx.minVersion = some m) (hm : 1 ≤ m) (hd : ctx.hasDeadline = true)
    (hce : env.ctxErr = .ctxCanceled ∨ env.ctxErr = .ctxDeadlineExceeded)
    (hr : ∀ i, i ≤ k → retryableErr (findMinVersion (env.inner i) ctx.ns m).err = true)
    (hw : env.doneWins k = true) (hf : k < fuel) :
    ∃ j, j ≤ k + 1 ∧ Find env ctx fuel = some (⟨none, some env.ctxErr⟩, j) ∧
      (∀ ns2, env.ctxErr ≠ .repoError .incorrectModelVersion ns2) ∧
      (∀ ns2, env.ctxErr ≠ .repoError .modelNotFound ns2) := by
  obtain ⟨j, hj, hres⟩ := findLoop_cancel env ctx m k 0 fuel hd
    (fun i hi => by simpa using hr i hi) (by simpa using hw) hf
  refine ⟨j, by simpa using hj, ?_, ?_, ?_⟩
  · rw [Find_eq_findLoop env ctx m fuel hmv hm]
    exact hres
  · rcases hce with h | h <;> simp [h]
  · rcases hce with h | h <;> simp [h]

/-- Witness for C6: stored version stays at 1 below the requested 3, the
done signal fires during the first backoff wait, and the run ends with
the deadline error after one attempt. -/
theorem find_cancellation_not_masked_witness :
    ∃ j, j ≤ 1 ∧ Find envCancel ⟨some 3, true, "ns"⟩ 1 =
        some (⟨none, some Error.ctxDeadlineExceeded⟩, j) ∧
      (∀ ns2, Error.ctxDeadlineExceeded ≠ Error.repoError .incorrectModelVersion ns2) ∧
      (∀ ns2, Error.ctxDeadlineExceeded ≠ Error.repoError .modelNotFound ns2) :=
  find_cancellation_not_masked envCancel ⟨some 3, true, "ns"⟩ 3 0 1 rfl (by norm_num)
    rfl (Or.inr rfl) (fun i _ => rfl) rfl (by norm_num)

/-- C7: the chain walker `Repository` returns exactly the first Version
Gate reached by following `Parent()` links inward (the head of the walk
that satisfies the `*Repo` type test), and returns nil precisely when the
given repository is nil or no Version Gate occurs anywhere in the chain;
the walk terminates at the root (the recursion is well-founded on the
chain). -/
theorem Repository_locates_nearest_gate (o : Option ReadRepo) :
    Repository o = (chain o).find? isVersionRepo ∧
      (Repository o = none ↔ ∀ r ∈ chain o, isVersionRepo r = false) := by
  refine ⟨Repository_eq_chain_find o, ?_⟩
  rw [Repository_eq_chain_find o]
  simp [List.find?_eq_none]

/-- Witness for C7: a middleware wrapping a Version Gate yields that
gate. -/
theorem Repository_locates_nearest_gate_witness :
    Repository (some (.middleware (some (.versionRepo none)))) =
      some (.versionRepo none) := by
  rw [(Repository_locates_nearest_gate (some (.middleware (some (.versionRepo none))))).1]
  simp [chain, Parent, isVersionRepo, List.find?]

/-- C8: the retry loop has exactly three kinds of exits — success, a
non-retryable error, and the no-deadline single attempt or cancellation —
(first conjunct), and every result the loop produces is the payload of
one of these `ret` exits of some iteration (second conjunct); the
post-loop fallback return of repo.go lines 84-87 (`unreachableReturn`)
is the source of no result. -/
theorem find_loop_three_exits :
    (∀ (env : GateEnv) (ctx : Ctx) (m : Int) (n : Nat) (r : FindResult),
        findStep env ctx m n = .ret r →
          (r.err = none ∧ r.model = (findMinVersion (env.inner n) ctx.ns m).model) ∨
            (∃ e, r = ⟨none, some e⟩ ∧ retryableErr (some e) = false) ∨
            (ctx.hasDeadline = false ∧ r = findMinVersion (env.inner n) ctx.ns m) ∨
            (ctx.hasDeadline = true ∧ env.doneWins n = true ∧
              r = ⟨none, some env.ctxErr⟩)) ∧
      (∀ (env : GateEnv) (ctx : Ctx) (m : Int) (n fuel j : Nat) (r : FindResult),
        findLoop env ctx m n fuel = some (r, j) →
          ∃ i, n ≤ i ∧ findStep env ctx m i = .ret r ∧ j = i + 1) := by
  constructor
  · intro env ctx m n r h
    rcases findStep_ret_cases env ctx m n r h with
      ⟨h1, h2⟩ | ⟨e, h1, h2, h3⟩ | ⟨h1, h2, h3⟩ | ⟨h1, h2, h3⟩
    · exact Or.inl ⟨by rw [h1], by rw [h1]⟩
    · exact Or.inr (Or.inl ⟨e, h1, h3⟩)
    · exact Or.inr (Or.inr (Or.inl ⟨h1, h2⟩))
    · exact Or.inr (Or.inr (Or.inr ⟨h1, h2, h3⟩))
  · intro env ctx m n fuel j r h
    exact findLoop_ret_step env ctx m fuel n r j h

/-- Witness for C8: a concrete one-iteration run's result is the payload
of the first iteration's exit. -/
theorem find_loop_three_exits_witness :
    ∃ i, 0 ≤ i ∧ findStep envV2 ⟨some 3, false, "ns"⟩ 3 i =
        .ret ⟨none, some (.repoError .incorrectModelVersion "ns")⟩ ∧ 1 = i + 1 :=
  find_loop_three_exits.2 envV2 ⟨some 3, false, "ns"⟩ 3 0 1 1
    ⟨none, some (.repoError .incorrectModelVersion "ns")⟩ (by decide)

/-- C10: with a minimum-version requirement of at least 1 present, every
result the Version Gate's `Find` returns alongside a non-nil error
carries a nil model — on every path, including the no-deadline single
attempt. -/
theorem find_error_implies_nil_model (env : GateEnv) (ctx : Ctx) (m : Int) (fuel j : Nat)
    (r : FindResult) (hmv : ctx.minVersion = some m) (hm : 1 ≤ m)
    (h : Find env ctx fuel = some (r, j)) (he : r.err.isSome) : r.model = none := by
  rw [Find_eq_findLoop env ctx m fuel hmv hm] at h
  obtain ⟨i, _, hstep, _⟩ := findLoop_ret_step env ctx m fuel 0 r j h
  rcases findStep_ret_cases env ctx m i r hstep with
    ⟨h1, h2⟩ | ⟨e, h1, h2, h3⟩ | ⟨h1, h2, h3⟩ | ⟨h1, h2, h3⟩
  · rw [h1] at he
    simp at he
  · rw [h1]
  · rw [h2] at he ⊢
    exact findMinVersion_err_model_none (env.inner i) ctx.ns m he
  · rw [h3]

/-- Witness for C10: the no-version failure path returns a nil model. -/
theorem find_error_implies_nil_model_witness :
    (⟨none, some (Error.repoError .modelHasNoVersion "ns")⟩ : FindResult).model = none :=
  find_error_implies_nil_model envPlain ⟨some 3, true, "ns"⟩ 3 1 1
    ⟨none, some (.repoError .modelHasNoVersion "ns")⟩ rfl (by norm_num) (by decide) rfl

end Version

/-- C9 counterexample: with a factory set, a storage failure other than
"model absent" (here the query error "i/o timeout") still makes the
concrete store's `Find` return the bare `eventhorizon.ErrModelNotFound`;
no distinct Internal error exists, so "NotFound exactly when no model is
stored, Internal on any other storage failure" is false on this code. -/
theorem mongo_find_conflates_failures :
    MongoDB.Find ⟨true⟩ (.errOther "i/o timeout") =
        ⟨none, some (.sentinel .modelNotFound)⟩ ∧
      ¬ (∀ (r : MongoDB.ReadRepository) (q : MongoDB.QueryResult), r.hasFactory = true →
          ((MongoDB.Find r q).err = some (.sentinel .modelNotFound) ↔
            q = .errNotFound)) := by
  refine ⟨rfl, fun h => ?_⟩
  have h2 := (h ⟨true⟩ (.errOther "i/o timeout") rfl).1 rfl
  cases h2

/-- C9 amended: the concrete store's `Find` returns the read model on
query success, fails with `ErrModelNotSet` when no model factory is set,
and fails with the bare `eventhorizon.ErrModelNotFound` on every query
failure — whether the model is absent or the storage failed in some other
way; it produces no other error. -/
theorem mongo_find_spec (r : MongoDB.ReadRepository) (q : MongoDB.QueryResult) :
    (r.hasFactory = false → MongoDB.Find r q = ⟨none, some (.sentinel .modelNotSet)⟩) ∧
      (∀ m, r.hasFactory = true → q = .found m → MongoDB.Find r q = ⟨some m, none⟩) ∧
      (r.hasFactory = true → (∀ m, q ≠ .found m) →
        MongoDB.Find r q = ⟨none, some (.sentinel .modelNotFound)⟩) := by
  refine ⟨?_, ?_, ?_⟩
  · intro hf
    simp [MongoDB.Find, hf]
  · intro m hf hq
    simp [MongoDB.Find, hf, hq]
  · intro hf hq
    cases q with
    | found m => exact absurd rfl (hq m)
    | errNotFound => simp [MongoDB.Find, hf]
    | errOther s => simp [MongoDB.Find, hf]

/-- Witness for the amended C9: the driver's not-found outcome yields
`ErrModelNotFound`. -/
theorem mongo_find_spec_witness :
    MongoDB.Find ⟨true⟩ .errNotFound = ⟨none, some (.sentinel .modelNotFound)⟩ :=
  (mongo_find_spec ⟨true⟩ .errNotFound).2.2 rfl (fun m h => by cases h)

end EventHorizon
